import Mathlib

/-!
# Verification of the `mafs` SIMD vector/matrix kernel

Shallow embedding of the numeric kernel of the `mafs` crate: 2- and 4-lane
floating-point vectors, a 4x4 column-major matrix, and the operator layer.

Scalar lanes are modelled by the idealized IEEE-754 type `F`: a quiet NaN,
signed infinities, a negative zero, and exact finite values carried as
rationals (`fin 0` is positive zero).  Arithmetic on finite values is exact
(rationals are closed under `+`, `-`, `*`, `/`); the special-value rules
(NaN propagation, signed zeros, infinity arithmetic, IEEE comparison) follow
IEEE-754 and the x86 intrinsic semantics used by the source
(`_mm[256]_add/sub/mul/div/min/max`, `_mm[256]_cmp`, permutes, `fmadd`).
Each SIMD intrinsic appearing in the source is embedded as its own lane
permutation / lane-wise function, and the crate's operations are composed
from them exactly as the Rust code composes the intrinsics.
-/

namespace Mafs

/-- Idealized IEEE-754 scalar: NaN, signed infinity (`true` = negative),
negative zero, and exact finite rationals (`fin 0` is positive zero). -/
inductive F where
  | nan : F
  | inf : Bool → F
  | nzero : F
  | fin : ℚ → F
deriving DecidableEq, Repr

namespace F

/-- Is this value a NaN? -/
def isNan : F → Bool
  | nan => true
  | _ => false

/-- Is this value an infinity? -/
def isInf : F → Bool
  | inf _ => true
  | _ => false

/-- Is this value finite (a finite rational or a signed zero)? -/
def isFinite : F → Bool
  | nzero => true
  | fin _ => true
  | _ => false

/-- Is this value a zero (of either sign)? -/
def isZero : F → Bool
  | nzero => true
  | fin q => decide (q = 0)
  | _ => false

/-- Sign bit of a value (`true` = negative); NaN sign is irrelevant. -/
def sign : F → Bool
  | nan => false
  | inf s => s
  | nzero => true
  | fin q => decide (q < 0)

/-- A zero with the given sign bit. -/
def mkZero (s : Bool) : F := if s then nzero else fin 0

/-- IEEE-754 addition, exact on finite values (round-to-nearest ties the
sum of two zeros of opposite signs to `+0`, and `x + (-x) = +0`). -/
def fadd : F → F → F
  | nan, _ => nan
  | _, nan => nan
  | inf s, inf t => if s = t then inf s else nan
  | inf s, nzero => inf s
  | inf s, fin _ => inf s
  | nzero, inf t => inf t
  | fin _, inf t => inf t
  | nzero, nzero => nzero
  | nzero, fin q => fin q
  | fin q, nzero => fin q
  | fin q, fin r => fin (q + r)

/-- Flip the sign bit (the IEEE negation used to define `x - y = x + (-y)`). -/
def fnegBit : F → F
  | nan => nan
  | inf s => inf !s
  | nzero => fin 0
  | fin q => if q = 0 then nzero else fin (-q)

/-- IEEE-754 subtraction: `x - y = x + (-y)`. -/
def fsub (a b : F) : F := fadd a (fnegBit b)

/-- IEEE-754 multiplication, exact on finite values. -/
def fmul : F → F → F
  | nan, _ => nan
  | _, nan => nan
  | inf s, inf t => inf (xor s t)
  | inf _, nzero => nan
  | nzero, inf _ => nan
  | inf s, fin q => if q = 0 then nan else inf (xor s (decide (q < 0)))
  | fin q, inf t => if q = 0 then nan else inf (xor (decide (q < 0)) t)
  | nzero, nzero => fin 0
  | nzero, fin q => mkZero (xor true (decide (q < 0)))
  | fin q, nzero => mkZero (xor (decide (q < 0)) true)
  | fin q, fin r =>
      if q * r = 0 then mkZero (xor (decide (q < 0)) (decide (r < 0)))
      else fin (q * r)

/-- IEEE-754 division, exact on finite values. -/
def fdiv : F → F → F
  | nan, _ => nan
  | _, nan => nan
  | inf _, inf _ => nan
  | inf s, nzero => inf (xor s true)
  | inf s, fin q => inf (xor s (decide (q < 0)))
  | nzero, inf t => mkZero (xor true t)
  | fin q, inf t => mkZero (xor (decide (q < 0)) t)
  | nzero, nzero => nan
  | nzero, fin q => if q = 0 then nan else mkZero (xor true (decide (q < 0)))
  | fin q, nzero => if q = 0 then nan else inf (xor (decide (q < 0)) true)
  | fin q, fin r =>
      if r = 0 then (if q = 0 then nan else inf (decide (q < 0)))
      else if q = 0 then mkZero (xor false (decide (r < 0)))
      else fin (q / r)

/-- IEEE-754 ordered less-than (`false` whenever an operand is NaN;
zeros of both signs compare equal). -/
def flt : F → F → Bool
  | nan, _ => false
  | _, nan => false
  | inf s, inf t => s && !t
  | inf s, nzero => s
  | inf s, fin _ => s
  | nzero, inf t => !t
  | fin _, inf t => !t
  | nzero, nzero => false
  | nzero, fin q => decide (0 < q)
  | fin q, nzero => decide (q < 0)
  | fin q, fin r => decide (q < r)

/-- IEEE-754 equality (`false` whenever an operand is NaN; `+0 == -0`). -/
def feq : F → F → Bool
  | nan, _ => false
  | _, nan => false
  | inf s, inf t => s = t
  | inf _, nzero => false
  | inf _, fin _ => false
  | nzero, inf _ => false
  | fin _, inf _ => false
  | nzero, nzero => true
  | nzero, fin q => decide (q = 0)
  | fin q, nzero => decide (q = 0)
  | fin q, fin r => decide (q = r)

/-- The x86 `minpd/minps` lane rule: `a < b ? a : b`
(the second operand is returned whenever the comparison is false,
in particular whenever either operand is NaN). -/
def minSSE (a b : F) : F := if flt a b then a else b

/-- The x86 `maxpd/maxps` lane rule: `a > b ? a : b`. -/
def maxSSE (a b : F) : F := if flt b a then a else b

/-- Rust's `f32::min`/`f64::min`: if one argument is NaN the other is
returned; otherwise the smaller value. -/
def rustMin (a b : F) : F :=
  if a.isNan then b else if b.isNan then a else if flt a b then a else b

/-- Rust's `f32::max`/`f64::max`. -/
def rustMax (a b : F) : F :=
  if a.isNan then b else if b.isNan then a else if flt b a then a else b

/-- Exact rational square root when the argument is a square of a rational;
otherwise a nonnegative finite approximation (rationals are not closed
under square roots; no claim depends on the inexact branch). -/
def ratSqrt (q : ℚ) : ℚ := (Nat.sqrt q.num.toNat : ℚ) / (Nat.sqrt q.den : ℚ)

/-- IEEE-754 square root: `sqrt(-0) = -0`, negative arguments give NaN. -/
def fsqrt : F → F
  | nan => nan
  | inf s => if s then nan else inf false
  | nzero => nzero
  | fin q => if q < 0 then nan else fin (ratSqrt q)

theorem fadd_comm (a b : F) : fadd a b = fadd b a := by
  cases a <;> cases b <;> simp [fadd] <;> try ring_nf
  rename_i s t
  by_cases h : s = t
  · subst h; simp
  · have h' : ¬t = s := fun hh => h hh.symm
    simp [h, h']

theorem fmul_comm (a b : F) : fmul a b = fmul b a := by
  cases a <;> cases b <;> simp [fmul, Bool.xor_comm] <;> try ring_nf
  rename_i q r
  by_cases h : q = 0 ∨ r = 0
  · simp [h, Or.symm h]
  · have h' : ¬(r = 0 ∨ q = 0) := fun hh => h (Or.symm hh)
    simp [h, h']

end F

open F

/-- A 4-lane vector (`__m256d` for `Dvec4`, `__m128` for `Fvec4`); lane
order `[x, y, z, w]` with index 0 = x. -/
structure V4 where
  x : F
  y : F
  z : F
  w : F
deriving DecidableEq, Repr

/-- Lane access (`as_array` / the `[]` operator): index 0 = x, .., 3 = w. -/
def V4.lane (v : V4) (i : Fin 4) : F :=
  if i.val = 0 then v.x else if i.val = 1 then v.y else if i.val = 2 then v.z else v.w

/-- A 2-lane vector (`__m128d` for `Dvec2`, `[f32; 2]` for `Fvec2`). -/
structure V2 where
  x : F
  y : F
deriving DecidableEq, Repr

/-- Lane access for 2-lane vectors. -/
def V2.lane (v : V2) (i : Fin 2) : F :=
  if i.val = 0 then v.x else v.y

/-- A 4x4 column-major matrix (`inner: [Dvec4; 4]` / `[Fvec4; 4]`). -/
structure M4 where
  c0 : V4
  c1 : V4
  c2 : V4
  c3 : V4
deriving DecidableEq, Repr

/-- Column access (`as_array` / the `[]` operator on matrices). -/
def M4.col (m : M4) (i : Fin 4) : V4 :=
  if i.val = 0 then m.c0 else if i.val = 1 then m.c1 else if i.val = 2 then m.c2 else m.c3

/-! ### Embedded x86 intrinsics

Each lane-shuffling intrinsic used by the source is embedded as the lane
permutation documented by Intel; lane-wise arithmetic intrinsics map the
scalar model over the lanes. -/

/-- `_mm256_permute4x64_pd::<0b_11_00_10_01>` / `_mm_permute_ps::<0b_11_00_10_01>`:
lane selection `(1, 2, 0, 3)`. -/
def perm4_1203 (a : V4) : V4 := ⟨a.y, a.z, a.x, a.w⟩

/-- `_mm256_permute4x64_pd::<0b_00_00_00_00>` / `_mm_permute_ps` alike:
broadcast lane 0. -/
def perm4_bcast0 (a : V4) : V4 := ⟨a.x, a.x, a.x, a.x⟩

/-- Broadcast lane 1 (`imm8 = 0b_01_01_01_01`). -/
def perm4_bcast1 (a : V4) : V4 := ⟨a.y, a.y, a.y, a.y⟩

/-- Broadcast lane 2 (`imm8 = 0b_10_10_10_10`). -/
def perm4_bcast2 (a : V4) : V4 := ⟨a.z, a.z, a.z, a.z⟩

/-- Broadcast lane 3 (`imm8 = 0b_11_11_11_11`). -/
def perm4_bcast3 (a : V4) : V4 := ⟨a.w, a.w, a.w, a.w⟩

/-- `_mm256_unpacklo_pd`: `(a0, b0, a2, b2)`. -/
def unpacklo_pd256 (a b : V4) : V4 := ⟨a.x, b.x, a.z, b.z⟩

/-- `_mm256_unpackhi_pd`: `(a1, b1, a3, b3)`. -/
def unpackhi_pd256 (a b : V4) : V4 := ⟨a.y, b.y, a.w, b.w⟩

/-- `_mm256_permute2f128_pd::<0b_00_10_00_00>` (`0x20`): low half of `a`
then low half of `b`. -/
def perm2f128_20 (a b : V4) : V4 := ⟨a.x, a.y, b.x, b.y⟩

/-- `_mm256_permute2f128_pd::<0b_00_11_00_01>` (`0x31`): high half of `a`
then high half of `b`. -/
def perm2f128_31 (a b : V4) : V4 := ⟨a.z, a.w, b.z, b.w⟩

/-- `_mm_unpacklo_ps`: `(a0, b0, a1, b1)`. -/
def unpacklo_ps (a b : V4) : V4 := ⟨a.x, b.x, a.y, b.y⟩

/-- `_mm_unpackhi_ps`: `(a2, b2, a3, b3)`. -/
def unpackhi_ps (a b : V4) : V4 := ⟨a.z, b.z, a.w, b.w⟩

/-- `_mm_movelh_ps`: `(a0, a1, b0, b1)`. -/
def movelh_ps (a b : V4) : V4 := ⟨a.x, a.y, b.x, b.y⟩

/-- `_mm_movehl_ps`: `(b2, b3, a2, a3)`. -/
def movehl_ps (a b : V4) : V4 := ⟨b.z, b.w, a.z, a.w⟩

/-- `_mm_permute_ps::<0b_11_10>`: lane selection `(2, 3, 0, 0)`. -/
def perm4_2300 (a : V4) : V4 := ⟨a.z, a.w, a.x, a.x⟩

/-- `_mm_permute_ps::<1>`: lane selection `(1, 0, 0, 0)`. -/
def perm4_1000 (a : V4) : V4 := ⟨a.y, a.x, a.x, a.x⟩

/-- Lane-wise map of a binary scalar operation over 4 lanes. -/
def map4 (f : F → F → F) (a b : V4) : V4 :=
  ⟨f a.x b.x, f a.y b.y, f a.z b.z, f a.w b.w⟩

/-- `_mm[256]_fmadd`: lane-wise `a*b + c` (exact model, so fusion is
semantically the product followed by the sum). -/
def fmadd4 (a b c : V4) : V4 :=
  ⟨fadd (fmul a.x b.x) c.x, fadd (fmul a.y b.y) c.y,
   fadd (fmul a.z b.z) c.z, fadd (fmul a.w b.w) c.w⟩

/-- `_mm256_castpd256_pd128`: the low two lanes. -/
def low128 (a : V4) : V2 := ⟨a.x, a.y⟩

/-- `_mm256_extractf128_pd::<1>`: the high two lanes. -/
def high128 (a : V4) : V2 := ⟨a.z, a.w⟩

/-- `_mm_add_pd` on a 128-bit register (2 lanes). -/
def add_pd2 (a b : V2) : V2 := ⟨fadd a.x b.x, fadd a.y b.y⟩

/-- `_mm_add_sd`: add lane 0 only, upper lane from the first operand. -/
def add_sd2 (a b : V2) : V2 := ⟨fadd a.x b.x, a.y⟩

/-- `_mm_permute_pd::<1>`: swap the two lanes. -/
def perm2_swap (a : V2) : V2 := ⟨a.y, a.x⟩

/-- Lane-wise map of a binary scalar operation over 2 lanes. -/
def map2 (f : F → F → F) (a b : V2) : V2 := ⟨f a.x b.x, f a.y b.y⟩

/-! ### `Dvec4` (src/dvec4.rs) -/

namespace Dvec4

/-- `Dvec4::new` (`_mm256_set_pd(w, z, y, x)`). -/
def new (x y z w : F) : V4 := ⟨x, y, z, w⟩

/-- `Vec4::splat` (provided method: `new(v, v, v, v)`). -/
def splat (v : F) : V4 := new v v v v

def add_componentwise (a b : V4) : V4 := map4 fadd a b

def sub_componentwise (a b : V4) : V4 := map4 fsub a b

def mul_componentwise (a b : V4) : V4 := map4 fmul a b

def div_componentwise (a b : V4) : V4 := map4 fdiv a b

/-- `_mm256_min_pd` lane-wise. -/
def min_componentwise (a b : V4) : V4 := map4 minSSE a b

/-- `_mm256_max_pd` lane-wise. -/
def max_componentwise (a b : V4) : V4 := map4 maxSSE a b

/-- `Dvec4::eq_reduce`: `_mm256_cmp_pd::<_CMP_EQ_OQ>` then a movemask test
that every lane compared equal. -/
def eq_reduce (a b : V4) : Bool :=
  feq a.x b.x && feq a.y b.y && feq a.z b.z && feq a.w b.w

/-- `Dvec4::dot`: lane-wise product, fold the 256-bit register onto 128
bits (`(p0+p2, p1+p3)`), then `add_sd` with the swapped pair. -/
def dot (a b : V4) : F :=
  let prod := mul_componentwise a b
  let reduce128 := add_pd2 (low128 prod) (high128 prod)
  let reduce64 := add_sd2 reduce128 (perm2_swap reduce128)
  reduce64.x

/-- `Dvec4::cross`: `perm(self * perm(rhs) - rhs * perm(self))` with the
permutation `(1, 2, 0, 3)`. -/
def cross (a b : V4) : V4 :=
  let left := mul_componentwise a (perm4_1203 b)
  let right := mul_componentwise b (perm4_1203 a)
  perm4_1203 (sub_componentwise left right)

/-- The `Neg` operator from `implement_vecops!`: `splat(0) - self`. -/
def neg (v : V4) : V4 := sub_componentwise (splat (fin 0)) v

/-- `Vec4::norm` (provided method): `sqrt(dot(self, self))`. -/
def norm (v : V4) : F := fsqrt (dot v v)

/-- `Vec4::normalize` (provided method): `self / splat(norm(self))`. -/
def normalize (v : V4) : V4 := div_componentwise v (splat (norm v))

/-- `implement_scalarops!`: `Scalar * Vector` is `splat(self).mul_componentwise(rhs)`. -/
def scalar_mul (s : F) (v : V4) : V4 := mul_componentwise (splat s) v

/-- `implement_vecops!`: `Vector * Scalar` is `self.mul_componentwise(splat(rhs))`. -/
def mul_scalar (v : V4) (s : F) : V4 := mul_componentwise v (splat s)

end Dvec4

/-! ### `Fvec4` (src/fvec4.rs) — same idealized lanes, the `f32`
operations composed from the 128-bit intrinsics of the source. -/

namespace Fvec4

def new (x y z w : F) : V4 := ⟨x, y, z, w⟩

def splat (v : F) : V4 := new v v v v

def add_componentwise (a b : V4) : V4 := map4 fadd a b

def sub_componentwise (a b : V4) : V4 := map4 fsub a b

def mul_componentwise (a b : V4) : V4 := map4 fmul a b

def div_componentwise (a b : V4) : V4 := map4 fdiv a b

def min_componentwise (a b : V4) : V4 := map4 minSSE a b

def max_componentwise (a b : V4) : V4 := map4 maxSSE a b

def eq_reduce (a b : V4) : Bool :=
  feq a.x b.x && feq a.y b.y && feq a.z b.z && feq a.w b.w

/-- `Fvec4::dot`: lane-wise product, add the `(2,3,0,0)`-permuted register,
then `add_ss` with the `(1,0,0,0)`-permuted partial sums; lane 0 holds
`(p0 + p2) + (p1 + p3)`. -/
def dot (a b : V4) : F :=
  let prod := mul_componentwise a b
  let reduce64 := add_componentwise prod (perm4_2300 prod)
  let reduce32 := fadd reduce64.x (perm4_1000 reduce64).x
  reduce32

/-- `Fvec4::cross`: same permutation scheme as `Dvec4::cross`. -/
def cross (a b : V4) : V4 :=
  let left := mul_componentwise a (perm4_1203 b)
  let right := mul_componentwise b (perm4_1203 a)
  perm4_1203 (sub_componentwise left right)

def neg (v : V4) : V4 := sub_componentwise (splat (fin 0)) v

def norm (v : V4) : F := fsqrt (dot v v)

def normalize (v : V4) : V4 := div_componentwise v (splat (norm v))

def mul_scalar (v : V4) (s : F) : V4 := mul_componentwise v (splat s)

end Fvec4

/-! ### `Dvec2` (src/dvec2.rs) and `Fvec2` (src/fvec2.rs) -/

namespace Dvec2

def new (x y : F) : V2 := ⟨x, y⟩

def splat (v : F) : V2 := new v v

def add_componentwise (a b : V2) : V2 := map2 fadd a b

def sub_componentwise (a b : V2) : V2 := map2 fsub a b

def mul_componentwise (a b : V2) : V2 := map2 fmul a b

def div_componentwise (a b : V2) : V2 := map2 fdiv a b

/-- `_mm_min_pd` lane-wise. -/
def min_componentwise (a b : V2) : V2 := map2 minSSE a b

/-- `_mm_max_pd` lane-wise. -/
def max_componentwise (a b : V2) : V2 := map2 maxSSE a b

def eq_reduce (a b : V2) : Bool := feq a.x b.x && feq a.y b.y

/-- `Dvec2::dot`: lane-wise product then `add_sd` with the swapped pair:
lane 0 holds `p0 + p1`. -/
def dot (a b : V2) : F :=
  let prod := mul_componentwise a b
  (add_sd2 prod (perm2_swap prod)).x

def neg (v : V2) : V2 := sub_componentwise (splat (fin 0)) v

def norm (v : V2) : F := fsqrt (dot v v)

def normalize (v : V2) : V2 := div_componentwise v (splat (norm v))

def scalar_mul (s : F) (v : V2) : V2 := mul_componentwise (splat s) v

def mul_scalar (v : V2) (s : F) : V2 := mul_componentwise v (splat s)

end Dvec2

namespace Fvec2

def new (x y : F) : V2 := ⟨x, y⟩

def splat (v : F) : V2 := new v v

def add_componentwise (a b : V2) : V2 := map2 fadd a b

def sub_componentwise (a b : V2) : V2 := map2 fsub a b

def mul_componentwise (a b : V2) : V2 := map2 fmul a b

def div_componentwise (a b : V2) : V2 := map2 fdiv a b

/-- `Fvec2::min_componentwise`: Rust's scalar `f32::min` per lane
(this type is the scalar, non-SIMD implementation). -/
def min_componentwise (a b : V2) : V2 := map2 rustMin a b

/-- `Fvec2::max_componentwise`: Rust's scalar `f32::max` per lane. -/
def max_componentwise (a b : V2) : V2 := map2 rustMax a b

def eq_reduce (a b : V2) : Bool := feq a.x b.x && feq a.y b.y

/-- `Fvec2::dot`: `self[0]*rhs[0] + self[1]*rhs[1]`. -/
def dot (a b : V2) : F := fadd (fmul a.x b.x) (fmul a.y b.y)

def neg (v : V2) : V2 := sub_componentwise (splat (fin 0)) v

def norm (v : V2) : F := fsqrt (dot v v)

def normalize (v : V2) : V2 := div_componentwise v (splat (norm v))

def scalar_mul (s : F) (v : V2) : V2 := mul_componentwise (splat s) v

def mul_scalar (v : V2) (s : F) : V2 := mul_componentwise v (splat s)

end Fvec2

/-! ### `Dmat4` (src/dmat4.rs) -/

namespace Dmat4

/-- `Mat4::from_columns`. -/
def from_columns (a b c d : V4) : M4 := ⟨a, b, c, d⟩

/-- `Dmat4::mul_vector`: broadcast each lane of `rhs`, multiply into the
matching column, and accumulate with `fmadd` (column 0 first). -/
def mul_vector (m : M4) (rhs : V4) : V4 :=
  let r0 := Dvec4.mul_componentwise m.c0 (perm4_bcast0 rhs)
  let r1 := fmadd4 m.c1 (perm4_bcast1 rhs) r0
  let r2 := fmadd4 m.c2 (perm4_bcast2 rhs) r1
  fmadd4 m.c3 (perm4_bcast3 rhs) r2

/-- `Dmat4::transpose`: `unpacklo/unpackhi_pd` pairs then two
`permute2f128` half-register shuffles. -/
def transpose (m : M4) : M4 :=
  let c0 := unpacklo_pd256 m.c0 m.c1
  let c1 := unpackhi_pd256 m.c0 m.c1
  let c2 := unpacklo_pd256 m.c2 m.c3
  let c3 := unpackhi_pd256 m.c2 m.c3
  from_columns (perm2f128_20 c0 c2) (perm2f128_20 c1 c3)
    (perm2f128_31 c0 c2) (perm2f128_31 c1 c3)

/-- The derived `PartialEq` on `Dmat4` (`inner: [Dvec4; 4]`): element-wise
array equality, each `Dvec4` compared through its `eq_reduce`-backed
`PartialEq`. -/
def eq (m n : M4) : Bool :=
  Dvec4.eq_reduce m.c0 n.c0 && Dvec4.eq_reduce m.c1 n.c1 &&
  Dvec4.eq_reduce m.c2 n.c2 && Dvec4.eq_reduce m.c3 n.c3

/-- `Mat4::inverse_se3` (provided method in src/traits.rs), instantiated
at `Dmat4`: save `p = m[3]`, overwrite `m[3]` with `(0,0,0,1)`, transpose,
set `m[3] = -m.mul_vector(p)`, then `m[3][3] = 1`. -/
def inverse_se3 (m : M4) : M4 :=
  let p := m.c3
  let m1 : M4 := { m with c3 := Dvec4.new (fin 0) (fin 0) (fin 0) (fin 1) }
  let m2 := transpose m1
  let t := Dvec4.neg (mul_vector m2 p)
  { m2 with c3 := { t with w := fin 1 } }

/-- Modelled from the spec (§4.2 `inverse_se3` algorithm), for the
refinement half of the claim: "let `p` = column 3; set column 3 to
`(0,0,0,1)`; transpose the resulting matrix; compute the new column 3 as
`-(transposed_rotation · p)` with its lane-3 forced to `1`". -/
def inverse_se3_spec (m : M4) : M4 :=
  let p := m.c3
  let rotOnly : M4 := ⟨m.c0, m.c1, m.c2, ⟨fin 0, fin 0, fin 0, fin 1⟩⟩
  let transposed := transpose rotOnly
  let newCol3 := Dvec4.neg (mul_vector transposed p)
  ⟨transposed.c0, transposed.c1, transposed.c2,
    ⟨newCol3.x, newCol3.y, newCol3.z, fin 1⟩⟩

end Dmat4

/-! ### `Fmat4` (src/fmat4.rs) -/

namespace Fmat4

def from_columns (a b c d : V4) : M4 := ⟨a, b, c, d⟩

/-- `Fmat4::mul_vector`: same broadcast-and-`fmadd` scheme with the
`_mm_permute_ps` broadcasts. -/
def mul_vector (m : M4) (rhs : V4) : V4 :=
  let r0 := Fvec4.mul_componentwise m.c0 (perm4_bcast0 rhs)
  let r1 := fmadd4 m.c1 (perm4_bcast1 rhs) r0
  let r2 := fmadd4 m.c2 (perm4_bcast2 rhs) r1
  fmadd4 m.c3 (perm4_bcast3 rhs) r2

/-- `Fmat4::transpose`: `unpacklo/unpackhi_ps` pairs then
`movelh/movehl` half-register shuffles. -/
def transpose (m : M4) : M4 :=
  let c0 := unpacklo_ps m.c0 m.c1
  let c1 := unpackhi_ps m.c0 m.c1
  let c2 := unpacklo_ps m.c2 m.c3
  let c3 := unpackhi_ps m.c2 m.c3
  from_columns (movelh_ps c0 c2) (movehl_ps c2 c0)
    (movelh_ps c1 c3) (movehl_ps c3 c1)

/-- The derived `PartialEq` on `Fmat4`. -/
def eq (m n : M4) : Bool :=
  Fvec4.eq_reduce m.c0 n.c0 && Fvec4.eq_reduce m.c1 n.c1 &&
  Fvec4.eq_reduce m.c2 n.c2 && Fvec4.eq_reduce m.c3 n.c3

/-- `Mat4::inverse_se3` instantiated at `Fmat4`. -/
def inverse_se3 (m : M4) : M4 :=
  let p := m.c3
  let m1 : M4 := { m with c3 := Fvec4.new (fin 0) (fin 0) (fin 0) (fin 1) }
  let m2 := transpose m1
  let t := Fvec4.neg (mul_vector m2 p)
  { m2 with c3 := { t with w := fin 1 } }

/-- Modelled from the spec (§4.2), single-precision instance of the stated
`inverse_se3` procedure. -/
def inverse_se3_spec (m : M4) : M4 :=
  let p := m.c3
  let rotOnly : M4 := ⟨m.c0, m.c1, m.c2, ⟨fin 0, fin 0, fin 0, fin 1⟩⟩
  let transposed := transpose rotOnly
  let newCol3 := Fvec4.neg (mul_vector transposed p)
  ⟨transposed.c0, transposed.c1, transposed.c2,
    ⟨newCol3.x, newCol3.y, newCol3.z, fin 1⟩⟩

end Fmat4

/-! ### Helper lemmas about the scalar model -/

namespace F

/-- Value of a finite scalar (zeros of both signs have value 0);
irrelevant garbage on NaN/infinities. -/
def val : F → ℚ
  | fin q => q
  | _ => 0

theorem isFinite_not_nan {x : F} (h : x.isFinite = true) : x.isNan = false := by
  cases x <;> simp_all [isFinite, isNan]

theorem feq_refl {x : F} (h : x.isNan = false) : feq x x = true := by
  cases x <;> simp_all [feq, isNan]

theorem feq_nan_left {x y : F} (h : x.isNan = true) : feq x y = false := by
  cases x <;> cases y <;> simp_all [feq, isNan]

theorem feq_zeros {a b : F} (ha : a.isZero = true) (hb : b.isZero = true) :
    feq a b = true := by
  cases a <;> cases b <;> simp_all [isZero, feq]

theorem feq_of_val {a b : F} (ha : a.isFinite = true) (hb : b.isFinite = true)
    (h : val a = val b) : feq a b = true := by
  cases a <;> cases b <;> simp_all [isFinite, val, feq]

theorem feq_fin_zero {x : F} (h : feq x (fin 0) = true) : x.isZero = true := by
  cases x <;> simp_all [feq, isZero]

theorem feq_fin_one {x : F} (h : feq x (fin 1) = true) : x = fin 1 := by
  cases x <;> simp_all [feq]

theorem isZero_mkZero (s : Bool) : (mkZero s).isZero = true := by
  cases s <;> simp [mkZero, isZero]

theorem isFinite_mkZero (s : Bool) : (mkZero s).isFinite = true := by
  cases s <;> simp [mkZero, isFinite]

theorem isZero_isFinite {x : F} (h : x.isZero = true) : x.isFinite = true := by
  cases x <;> simp_all [isZero, isFinite]

theorem isZero_val {x : F} (h : x.isZero = true) : val x = 0 := by
  cases x <;> simp_all [isZero, val]

theorem isZero_fmul {a z : F} (ha : a.isFinite = true) (hz : z.isZero = true) :
    (fmul a z).isZero = true := by
  cases a with
  | nan => simp [isFinite] at ha
  | inf s => simp [isFinite] at ha
  | nzero =>
      cases z with
      | nan => simp [isZero] at hz
      | inf t => simp [isZero] at hz
      | nzero => simp [fmul, isZero]
      | fin q =>
          simp [isZero] at hz
          subst hz
          simp [fmul, mkZero, isZero]
  | fin q =>
      cases z with
      | nan => simp [isZero] at hz
      | inf t => simp [isZero] at hz
      | nzero => simp [fmul, isZero_mkZero]
      | fin r =>
          simp [isZero] at hz
          subst hz
          simp [fmul, isZero_mkZero]

theorem fmul_one (a : F) : fmul a (fin 1) = a := by
  cases a with
  | nan => rfl
  | inf s => cases s <;> decide
  | nzero => simp [fmul, mkZero]
  | fin q =>
      by_cases h : q = 0
      · subst h; simp [fmul, mkZero]
      · simp [fmul, h, mkZero]

theorem isZero_fadd {a b : F} (ha : a.isZero = true) (hb : b.isZero = true) :
    (fadd a b).isZero = true := by
  cases a <;> cases b <;> simp_all [isZero, fadd]

theorem isZero_fsub_zero {z : F} (hz : z.isZero = true) :
    (fsub (fin 0) z).isZero = true := by
  cases z <;> simp_all [isZero, fsub, fnegBit, fadd]

theorem isFinite_fmul {a b : F} (ha : a.isFinite = true) (hb : b.isFinite = true) :
    (fmul a b).isFinite = true := by
  cases a with
  | nan => simp [isFinite] at ha
  | inf s => simp [isFinite] at ha
  | nzero =>
      cases b with
      | nan => simp [isFinite] at hb
      | inf t => simp [isFinite] at hb
      | nzero => simp [fmul, isFinite]
      | fin q => simp [fmul, isFinite_mkZero]
  | fin q =>
      cases b with
      | nan => simp [isFinite] at hb
      | inf t => simp [isFinite] at hb
      | nzero => simp [fmul, isFinite_mkZero]
      | fin r =>
          by_cases h : q * r = 0
          · simp [fmul, h, isFinite_mkZero]
          · simp [fmul, h, isFinite]

theorem isFinite_fsub {a b : F} (ha : a.isFinite = true) (hb : b.isFinite = true) :
    (fsub a b).isFinite = true := by
  cases a with
  | nan => simp [isFinite] at ha
  | inf s => simp [isFinite] at ha
  | nzero =>
      cases b with
      | nan => simp [isFinite] at hb
      | inf t => simp [isFinite] at hb
      | nzero => simp [fsub, fnegBit, fadd, isFinite]
      | fin q =>
          by_cases h : q = 0 <;> simp [fsub, fnegBit, h, fadd, isFinite]
  | fin q =>
      cases b with
      | nan => simp [isFinite] at hb
      | inf t => simp [isFinite] at hb
      | nzero => simp [fsub, fnegBit, fadd, isFinite]
      | fin r =>
          by_cases h : r = 0 <;> simp [fsub, fnegBit, h, fadd, isFinite]

theorem val_fsub {a b : F} (ha : a.isFinite = true) (hb : b.isFinite = true) :
    val (fsub a b) = val a - val b := by
  cases a with
  | nan => simp [isFinite] at ha
  | inf s => simp [isFinite] at ha
  | nzero =>
      cases b with
      | nan => simp [isFinite] at hb
      | inf t => simp [isFinite] at hb
      | nzero => simp [fsub, fnegBit, fadd, val]
      | fin q =>
          by_cases h : q = 0 <;> simp [fsub, fnegBit, h, fadd, val]
  | fin q =>
      cases b with
      | nan => simp [isFinite] at hb
      | inf t => simp [isFinite] at hb
      | nzero => simp [fsub, fnegBit, fadd, val]
      | fin r =>
          by_cases h : r = 0 <;> simp [fsub, fnegBit, h, fadd, val] <;> ring

theorem fsub_self_finite {u : F} (h : u.isFinite = true) : fsub u u = fin 0 := by
  cases u with
  | nan => simp [isFinite] at h
  | inf s => simp [isFinite] at h
  | nzero => simp [fsub, fnegBit, fadd]
  | fin q => by_cases hq : q = 0 <;> simp [fsub, fnegBit, hq, fadd]

theorem fadd_rev4 (p0 p1 p2 p3 : F) :
    fadd p3 (fadd p2 (fadd p1 p0)) = fadd (fadd (fadd p0 p1) p2) p3 := by
  rw [fadd_comm p0 p1, fadd_comm (fadd p1 p0) p2, fadd_comm (fadd p2 (fadd p1 p0)) p3]

theorem fadd_eq_nzero {a b : F} (h : fadd a b = nzero) : a = nzero ∧ b = nzero := by
  cases a <;> cases b <;> simp_all [fadd]
  split at h <;> simp_all

theorem fmul_self_ne_nzero (x : F) : fmul x x ≠ nzero := by
  cases x with
  | nan => simp [fmul]
  | inf s => simp [fmul]
  | nzero => simp [fmul]
  | fin q =>
      by_cases h : q * q = 0
      · have hq : q = 0 := by exact mul_self_eq_zero.mp h
        simp [fmul, h, hq, mkZero]
      · simp [fmul, h]

/-- Shape of non-negative intermediates in `dot(self, self)`:
NaN, an infinity, or a finite non-negative value (never a negative zero). -/
def NN : F → Prop
  | fin q => 0 ≤ q
  | nzero => False
  | _ => True

theorem NN_sq (x : F) : NN (fmul x x) := by
  cases x with
  | nan => trivial
  | inf s => simp [fmul, NN]
  | nzero => simp [fmul, NN]
  | fin q =>
      by_cases h : q * q = 0
      · have hq : q = 0 := mul_self_eq_zero.mp h
        simp [fmul, h, hq, mkZero, NN]
      · simp [fmul, h, NN]
        exact le_of_lt (lt_of_le_of_ne (mul_self_nonneg q) (Ne.symm h))

theorem NN_fadd {a b : F} (ha : NN a) (hb : NN b) : NN (fadd a b) := by
  cases a <;> cases b <;> simp_all [fadd, NN]
  · rename_i s t
    by_cases hst : s = t <;> simp [hst, NN]
  · rename_i q r
    exact add_nonneg ha hb

theorem fadd_NN_eq_fin_zero {a b : F} (ha : NN a) (hb : NN b)
    (h : fadd a b = fin 0) : a = fin 0 ∧ b = fin 0 := by
  cases a <;> cases b <;> simp_all [fadd, NN]
  · rename_i s t
    by_cases hst : s = t <;> simp_all
  · rename_i q r
    constructor <;> linarith

theorem sq_eq_fin_zero {x : F} (h : fmul x x = fin 0) : x.isZero = true := by
  cases x with
  | nan => simp [fmul] at h
  | inf s => simp [fmul] at h
  | nzero => simp [isZero]
  | fin q =>
      by_cases hq : q * q = 0
      · simp [isZero, mul_self_eq_zero.mp hq]
      · simp [fmul, hq] at h

theorem fsqrt_isZero {d : F} (h : (fsqrt d).isZero = true) :
    d = fin 0 ∨ d = nzero := by
  cases d with
  | nan => simp [fsqrt, isZero] at h
  | inf s => cases s <;> simp [fsqrt, isZero] at h
  | nzero => right; rfl
  | fin q =>
      by_cases hq : q < 0
      · simp [fsqrt, hq, isZero] at h
      · left
        simp [fsqrt, hq, isZero, ratSqrt] at h
        rcases h with h1 | h2
        · have hq0 : q.num ≤ 0 := Int.toNat_eq_zero.mp (Nat.sqrt_eq_zero.mp h1)
          have hq1 : 0 ≤ q.num := Rat.num_nonneg.mpr (not_lt.mp hq)
          simp [Rat.num_eq_zero.mp (le_antisymm hq0 hq1)]
        · exact absurd (Nat.sqrt_eq_zero.mp h2) (Nat.pos_iff_ne_zero.mp q.pos)

theorem fdiv_zero_zero {x n : F} (hx : x.isZero = true) (hn : n.isZero = true) :
    fdiv x n = nan := by
  cases x <;> cases n <;> simp_all [isZero, fdiv]

theorem flt_nan_left {y : F} : flt nan y = false := by cases y <;> rfl

theorem flt_nan_right {x : F} : flt x nan = false := by cases x <;> rfl

theorem minSSE_nan {x y : F} (h : x.isNan = true ∨ y.isNan = true) : minSSE x y = y := by
  rcases h with hx | hy
  · cases x <;> simp_all [isNan, minSSE, flt_nan_left]
  · cases y <;> simp_all [isNan, minSSE, flt_nan_right]

theorem maxSSE_nan {x y : F} (h : x.isNan = true ∨ y.isNan = true) : maxSSE x y = y := by
  rcases h with hx | hy
  · cases x <;> simp_all [isNan, maxSSE, flt_nan_right]
  · cases y <;> simp_all [isNan, maxSSE, flt_nan_left]

theorem rustMin_nan_left {x y : F} (hx : x.isNan = true) : rustMin x y = y := by
  simp [rustMin, hx]

theorem rustMin_nan_right {x y : F} (hx : x.isNan = false) (hy : y.isNan = true) :
    rustMin x y = x := by
  simp [rustMin, hx, hy]

theorem rustMax_nan_left {x y : F} (hx : x.isNan = true) : rustMax x y = y := by
  simp [rustMax, hx]

theorem rustMax_nan_right {x y : F} (hx : x.isNan = false) (hy : y.isNan = true) :
    rustMax x y = x := by
  simp [rustMax, hx, hy]

/-- Key step for exact anti-commutativity of `cross` on finite lanes:
`u - v` compares IEEE-equal to `0 - (v - u)` (the crate's negation). -/
theorem feq_fsub_neg {u v : F} (hu : u.isFinite = true) (hv : v.isFinite = true) :
    feq (fsub u v) (fsub (fin 0) (fsub v u)) = true := by
  have hfin0 : (fin 0 : F).isFinite = true := rfl
  apply feq_of_val (isFinite_fsub hu hv) (isFinite_fsub hfin0 (isFinite_fsub hv hu))
  rw [val_fsub hu hv, val_fsub hfin0 (isFinite_fsub hv hu), val_fsub hv hu]
  show val u - val v = val (fin 0) - (val v - val u)
  simp [val]

end F

open F

/-- Concrete matrix from the spec scenarios (§8): columns
`(1,2,3,4),(5,6,7,8),(9,10,11,12),(13,14,15,16)`. -/
def M1ex : M4 :=
  ⟨⟨fin 1, fin 2, fin 3, fin 4⟩, ⟨fin 5, fin 6, fin 7, fin 8⟩,
   ⟨fin 9, fin 10, fin 11, fin 12⟩, ⟨fin 13, fin 14, fin 15, fin 16⟩⟩

/-- Concrete vector `(17,18,19,20)` from the spec scenarios. -/
def v17ex : V4 := ⟨fin 17, fin 18, fin 19, fin 20⟩

/-- Concrete vector `a = (2,3,5,6)` from the spec scenarios. -/
def aEx : V4 := ⟨fin 2, fin 3, fin 5, fin 6⟩

/-- Concrete vector `b = (6,9,2.5,3)` from the spec scenarios. -/
def bEx : V4 := ⟨fin 6, fin 9, fin (5/2), fin 3⟩

/-- Modelled from the spec (§4.1 `mul_vector`): the weighted sum
`Σ_{j=0..3} column_j * v[j]`, accumulated left-to-right (column 0 first,
column 3 last), each column scaled by the splatted lane of `v`. -/
def spec_weighted_sum (m : M4) (v : V4) : V4 :=
  Dvec4.add_componentwise
    (Dvec4.add_componentwise
      (Dvec4.add_componentwise
        (Dvec4.mul_componentwise m.c0 (Dvec4.splat v.x))
        (Dvec4.mul_componentwise m.c1 (Dvec4.splat v.y)))
      (Dvec4.mul_componentwise m.c2 (Dvec4.splat v.z)))
    (Dvec4.mul_componentwise m.c3 (Dvec4.splat v.w))

theorem mul_vector_is_weighted_sum (m : M4) (v : V4) :
    Dmat4.mul_vector m v = spec_weighted_sum m v := by
  simp only [Dmat4.mul_vector, spec_weighted_sum, Dvec4.add_componentwise,
    Dvec4.mul_componentwise, Dvec4.splat, Dvec4.new, map4, fmadd4,
    perm4_bcast0, perm4_bcast1, perm4_bcast2, perm4_bcast3]
  rw [V4.mk.injEq]
  exact ⟨fadd_rev4 _ _ _ _, fadd_rev4 _ _ _ _, fadd_rev4 _ _ _ _, fadd_rev4 _ _ _ _⟩

/-- Core of exact anti-commutativity of `cross` on vectors with only finite
lanes: every result lane has the shape `u - v` versus `0 - (v - u)`. -/
theorem cross_anticomm_finite (a b : V4)
    (ha0 : a.x.isFinite = true) (ha1 : a.y.isFinite = true)
    (ha2 : a.z.isFinite = true) (ha3 : a.w.isFinite = true)
    (hb0 : b.x.isFinite = true) (hb1 : b.y.isFinite = true)
    (hb2 : b.z.isFinite = true) (hb3 : b.w.isFinite = true) :
    Dvec4.eq_reduce (Dvec4.cross a b) (Dvec4.neg (Dvec4.cross b a)) = true := by
  simp only [Dvec4.cross, Dvec4.neg, Dvec4.sub_componentwise, Dvec4.splat,
    Dvec4.new, Dvec4.mul_componentwise, Dvec4.eq_reduce, map4, perm4_1203,
    Bool.and_eq_true]
  exact ⟨⟨⟨feq_fsub_neg (isFinite_fmul ha1 hb2) (isFinite_fmul hb1 ha2),
           feq_fsub_neg (isFinite_fmul ha2 hb0) (isFinite_fmul hb2 ha0)⟩,
          feq_fsub_neg (isFinite_fmul ha0 hb1) (isFinite_fmul hb0 ha1)⟩,
         feq_fsub_neg (isFinite_fmul ha3 hb3) (isFinite_fmul hb3 ha3)⟩

/-- C2: `mul_vector` is the weighted sum of the four columns, `column_j`
scaled by lane `v[j]`, accumulated left-to-right (column 0 first, column 3
last), in both precisions; and the matrix with columns
`(1,2,3,4),(5,6,7,8),(9,10,11,12),(13,14,15,16)` times `(17,18,19,20)` is
exactly `(538,612,686,760)`. -/
theorem claim_mul_vector_weighted_sum :
    (∀ (m : M4) (v : V4), Dmat4.mul_vector m v = spec_weighted_sum m v) ∧
    (∀ (m : M4) (v : V4), Fmat4.mul_vector m v = spec_weighted_sum m v) ∧
    Dmat4.mul_vector M1ex v17ex = Dvec4.new (fin 538) (fin 612) (fin 686) (fin 760) ∧
    Fmat4.mul_vector M1ex v17ex = Fvec4.new (fin 538) (fin 612) (fin 686) (fin 760) := by
  refine ⟨mul_vector_is_weighted_sum, fun m v => mul_vector_is_weighted_sum m v, ?_, ?_⟩ <;>
    norm_num [Dmat4.mul_vector, Fmat4.mul_vector, Dvec4.mul_componentwise,
      Fvec4.mul_componentwise, Dvec4.new, Fvec4.new, map4, fmadd4,
      perm4_bcast0, perm4_bcast1, perm4_bcast2, perm4_bcast3, M1ex, v17ex, fadd, fmul]

/-- C6: the shuffle-based `transpose` is exactly the row/column swap
(`transpose(M)[i][j] = M[j][i]`, bit-identical) in both precisions, and the
concrete matrix `M1` transposes to columns
`(1,5,9,13),(2,6,10,14),(3,7,11,15),(4,8,12,16)`. -/
theorem claim_transpose_exact :
    (∀ (m : M4) (i j : Fin 4), ((Dmat4.transpose m).col i).lane j = (m.col j).lane i) ∧
    (∀ (m : M4) (i j : Fin 4), ((Fmat4.transpose m).col i).lane j = (m.col j).lane i) ∧
    Dmat4.transpose M1ex =
      Dmat4.from_columns ⟨fin 1, fin 5, fin 9, fin 13⟩ ⟨fin 2, fin 6, fin 10, fin 14⟩
        ⟨fin 3, fin 7, fin 11, fin 15⟩ ⟨fin 4, fin 8, fin 12, fin 16⟩ ∧
    Fmat4.transpose M1ex =
      Fmat4.from_columns ⟨fin 1, fin 5, fin 9, fin 13⟩ ⟨fin 2, fin 6, fin 10, fin 14⟩
        ⟨fin 3, fin 7, fin 11, fin 15⟩ ⟨fin 4, fin 8, fin 12, fin 16⟩ := by
  refine ⟨?_, ?_, by decide, by decide⟩ <;>
    (intro m i j; fin_cases i <;> fin_cases j <;> rfl)

/-- C7: `dot` on 4-wide vectors is the paired-then-combined sum
`(a0*b0 + a2*b2) + (a1*b1 + a3*b3)` in both precisions, and
`(2,3,5,6) · (6,9,2.5,3) = 69.5` exactly. -/
theorem claim_dot_paired_order :
    (∀ a b : V4, Dvec4.dot a b =
       fadd (fadd (fmul a.x b.x) (fmul a.z b.z))
            (fadd (fmul a.y b.y) (fmul a.w b.w))) ∧
    (∀ a b : V4, Fvec4.dot a b =
       fadd (fadd (fmul a.x b.x) (fmul a.z b.z))
            (fadd (fmul a.y b.y) (fmul a.w b.w))) ∧
    Dvec4.dot aEx bEx = fin (139/2) ∧ Fvec4.dot aEx bEx = fin (139/2) := by
  refine ⟨fun _ _ => rfl, fun _ _ => rfl, ?_, ?_⟩ <;>
    norm_num [Dvec4.dot, Fvec4.dot, Dvec4.mul_componentwise, Fvec4.mul_componentwise,
      Fvec4.add_componentwise, map4, add_pd2, add_sd2, perm2_swap, perm4_2300,
      perm4_1000, low128, high128, aEx, bEx, fadd, fmul]

/-- C9: scalar-left and vector-left multiplication produce identical
results, both being splat-then-componentwise-multiply (for the types the
source gives both operators: `Dvec4`, `Dvec2`, `Fvec2`). -/
theorem claim_scalar_mul_symmetric :
    (∀ (s : F) (v : V4), Dvec4.scalar_mul s v = Dvec4.mul_scalar v s) ∧
    (∀ (s : F) (v : V2), Dvec2.scalar_mul s v = Dvec2.mul_scalar v s) ∧
    (∀ (s : F) (v : V2), Fvec2.scalar_mul s v = Fvec2.mul_scalar v s) := by
  refine ⟨fun s v => ?_, fun s v => ?_, fun s v => ?_⟩
  · simp only [Dvec4.scalar_mul, Dvec4.mul_scalar, Dvec4.mul_componentwise,
      Dvec4.splat, Dvec4.new, map4]
    rw [V4.mk.injEq]
    exact ⟨fmul_comm s v.x, fmul_comm s v.y, fmul_comm s v.z, fmul_comm s v.w⟩
  · simp only [Dvec2.scalar_mul, Dvec2.mul_scalar, Dvec2.mul_componentwise,
      Dvec2.splat, Dvec2.new, map2]
    rw [V2.mk.injEq]
    exact ⟨fmul_comm s v.x, fmul_comm s v.y⟩
  · simp only [Fvec2.scalar_mul, Fvec2.mul_scalar, Fvec2.mul_componentwise,
      Fvec2.splat, Fvec2.new, map2]
    rw [V2.mk.injEq]
    exact ⟨fmul_comm s v.x, fmul_comm s v.y⟩

/-- C3 counterexample: with a NaN lane in an operand, the `==` comparison of
`a.cross(b)` with `-(b.cross(a))` is `false` (IEEE equality rejects NaN),
so exact anti-commutativity under the equality operator fails for
arbitrary vectors. -/
theorem claim_cross_anticomm_cex :
    Dvec4.eq_reduce
      (Dvec4.cross (Dvec4.new nan (fin 0) (fin 0) (fin 0)) (Dvec4.splat (fin 0)))
      (Dvec4.neg (Dvec4.cross (Dvec4.splat (fin 0))
        (Dvec4.new nan (fin 0) (fin 0) (fin 0)))) = false := by
  norm_num [Dvec4.eq_reduce, Dvec4.cross, Dvec4.neg, Dvec4.sub_componentwise,
    Dvec4.mul_componentwise, Dvec4.splat, Dvec4.new, map4, perm4_1203, fadd, fmul,
    fsub, fnegBit, mkZero, feq]

/-- C3 (amended): `a.cross(b) == -(b.cross(a))` holds exactly, in both
precisions, for all vectors whose lanes are all finite. -/
theorem claim_cross_anticomm :
    ∀ a b : V4,
      a.x.isFinite = true → a.y.isFinite = true →
      a.z.isFinite = true → a.w.isFinite = true →
      b.x.isFinite = true → b.y.isFinite = true →
      b.z.isFinite = true → b.w.isFinite = true →
      Dvec4.eq_reduce (Dvec4.cross a b) (Dvec4.neg (Dvec4.cross b a)) = true ∧
      Fvec4.eq_reduce (Fvec4.cross a b) (Fvec4.neg (Fvec4.cross b a)) = true := by
  intro a b ha0 ha1 ha2 ha3 hb0 hb1 hb2 hb3
  have h := cross_anticomm_finite a b ha0 ha1 ha2 ha3 hb0 hb1 hb2 hb3
  exact ⟨h, h⟩

/-- C3 witness at the spec's concrete vectors. -/
theorem claim_cross_anticomm_witness :
    Dvec4.eq_reduce (Dvec4.cross aEx bEx) (Dvec4.neg (Dvec4.cross bEx aEx)) = true ∧
    Fvec4.eq_reduce (Fvec4.cross aEx bEx) (Fvec4.neg (Fvec4.cross bEx aEx)) = true :=
  claim_cross_anticomm aEx bEx (by decide) (by decide) (by decide) (by decide)
    (by decide) (by decide) (by decide) (by decide)

/-- C4 counterexample: lane 3 of `cross` is `w_a*w_b - w_b*w_a`, which is
NaN (not 0) when the operands' lane 3 is non-finite — contradicting
"lane 3 is exactly 0 regardless of the values in lane 3 ... including
non-finite lane-3 values". -/
theorem claim_cross_lane3_cex :
    (Dvec4.cross (Dvec4.new (fin 0) (fin 0) (fin 0) (inf false))
       (Dvec4.new (fin 0) (fin 0) (fin 0) (inf false))).w = nan ∧
    (Fvec4.cross (Fvec4.new (fin 0) (fin 0) (fin 0) (inf false))
       (Fvec4.new (fin 0) (fin 0) (fin 0) (inf false))).w = nan ∧
    nan ≠ fin 0 ∧ feq nan (fin 0) = false := by decide

/-- C4 (amended): lane 3 of `cross` is exactly `+0` whenever both operands
have a finite lane 3 (NaN results otherwise), and lanes 0-2 of the result
are determined by lanes 0-2 of the operands alone; both precisions. -/
theorem claim_cross_lane3 :
    (∀ a b : V4, a.w.isFinite = true → b.w.isFinite = true →
       (Dvec4.cross a b).w = fin 0 ∧ (Fvec4.cross a b).w = fin 0) ∧
    (∀ a b a' b' : V4, a.x = a'.x → a.y = a'.y → a.z = a'.z →
       b.x = b'.x → b.y = b'.y → b.z = b'.z →
       ((Dvec4.cross a b).x = (Dvec4.cross a' b').x ∧
        (Dvec4.cross a b).y = (Dvec4.cross a' b').y ∧
        (Dvec4.cross a b).z = (Dvec4.cross a' b').z ∧
        (Fvec4.cross a b).x = (Fvec4.cross a' b').x ∧
        (Fvec4.cross a b).y = (Fvec4.cross a' b').y ∧
        (Fvec4.cross a b).z = (Fvec4.cross a' b').z)) := by
  constructor
  · intro a b ha hb
    have : (Dvec4.cross a b).w = fin 0 := by
      show fsub (fmul a.w b.w) (fmul b.w a.w) = fin 0
      rw [fmul_comm b.w a.w]
      exact fsub_self_finite (isFinite_fmul ha hb)
    exact ⟨this, this⟩
  · intro a b a' b' h1 h2 h3 h4 h5 h6
    have hx : (Dvec4.cross a b).x = (Dvec4.cross a' b').x := by
      show fsub (fmul a.y b.z) (fmul b.y a.z) = fsub (fmul a'.y b'.z) (fmul b'.y a'.z)
      rw [h2, h3, h5, h6]
    have hy : (Dvec4.cross a b).y = (Dvec4.cross a' b').y := by
      show fsub (fmul a.z b.x) (fmul b.z a.x) = fsub (fmul a'.z b'.x) (fmul b'.z a'.x)
      rw [h1, h3, h4, h6]
    have hz : (Dvec4.cross a b).z = (Dvec4.cross a' b').z := by
      show fsub (fmul a.x b.y) (fmul b.x a.y) = fsub (fmul a'.x b'.y) (fmul b'.x a'.y)
      rw [h1, h2, h4, h5]
    exact ⟨hx, hy, hz, hx, hy, hz⟩

/-- C4 witness: concrete instances of both amended statements. -/
theorem claim_cross_lane3_witness :
    ((Dvec4.cross aEx bEx).w = fin 0 ∧ (Fvec4.cross aEx bEx).w = fin 0) ∧
    ((Dvec4.cross aEx bEx).x =
       (Dvec4.cross ⟨fin 2, fin 3, fin 5, nan⟩ ⟨fin 6, fin 9, fin (5/2), inf false⟩).x ∧
     (Dvec4.cross aEx bEx).y =
       (Dvec4.cross ⟨fin 2, fin 3, fin 5, nan⟩ ⟨fin 6, fin 9, fin (5/2), inf false⟩).y ∧
     (Dvec4.cross aEx bEx).z =
       (Dvec4.cross ⟨fin 2, fin 3, fin 5, nan⟩ ⟨fin 6, fin 9, fin (5/2), inf false⟩).z ∧
     (Fvec4.cross aEx bEx).x =
       (Fvec4.cross ⟨fin 2, fin 3, fin 5, nan⟩ ⟨fin 6, fin 9, fin (5/2), inf false⟩).x ∧
     (Fvec4.cross aEx bEx).y =
       (Fvec4.cross ⟨fin 2, fin 3, fin 5, nan⟩ ⟨fin 6, fin 9, fin (5/2), inf false⟩).y ∧
     (Fvec4.cross aEx bEx).z =
       (Fvec4.cross ⟨fin 2, fin 3, fin 5, nan⟩ ⟨fin 6, fin 9, fin (5/2), inf false⟩).z) :=
  ⟨claim_cross_lane3.1 aEx bEx (by decide) (by decide),
   claim_cross_lane3.2 aEx bEx ⟨fin 2, fin 3, fin 5, nan⟩
     ⟨fin 6, fin 9, fin (5/2), inf false⟩ rfl rfl rfl rfl rfl rfl⟩

/-- C5 counterexample: the SIMD `min`/`max` lane rule `a < b ? a : b`
returns the *second* operand whenever the comparison is false, so when only
the second operand's lane is NaN the result is NaN, not the non-NaN
operand's value. -/
theorem claim_minmax_nan_cex :
    (Dvec4.min_componentwise (Dvec4.new (fin 1) (fin 0) (fin 0) (fin 0))
       (Dvec4.new nan (fin 0) (fin 0) (fin 0))).x = nan ∧
    (Dvec4.max_componentwise (Dvec4.new (fin 1) (fin 0) (fin 0) (fin 0))
       (Dvec4.new nan (fin 0) (fin 0) (fin 0))).x = nan ∧
    nan ≠ fin 1 ∧ (fin 1 : F).isNan = false ∧ (nan : F).isNan = true := by decide

/-- C5 (amended): on the SIMD-implemented vector types (`Dvec4`, `Fvec4`,
`Dvec2`), `min/max_componentwise` return the second operand in any lane
where either operand is NaN — so the non-NaN operand wins only when the
*first* operand is NaN; on the scalar `Fvec2` the non-NaN operand wins in
both positions (Rust `f32::min`/`max`). -/
theorem claim_minmax_nan_policy :
    (∀ (a b : V4) (i : Fin 4), ((a.lane i).isNan || (b.lane i).isNan) = true →
       (Dvec4.min_componentwise a b).lane i = b.lane i ∧
       (Dvec4.max_componentwise a b).lane i = b.lane i ∧
       (Fvec4.min_componentwise a b).lane i = b.lane i ∧
       (Fvec4.max_componentwise a b).lane i = b.lane i) ∧
    (∀ (a b : V2) (i : Fin 2), ((a.lane i).isNan || (b.lane i).isNan) = true →
       (Dvec2.min_componentwise a b).lane i = b.lane i ∧
       (Dvec2.max_componentwise a b).lane i = b.lane i) ∧
    (∀ (a b : V2) (i : Fin 2),
       ((a.lane i).isNan = true → (b.lane i).isNan = false →
          (Fvec2.min_componentwise a b).lane i = b.lane i ∧
          (Fvec2.max_componentwise a b).lane i = b.lane i) ∧
       ((a.lane i).isNan = false → (b.lane i).isNan = true →
          (Fvec2.min_componentwise a b).lane i = a.lane i ∧
          (Fvec2.max_componentwise a b).lane i = a.lane i)) := by
  refine ⟨?_, ?_, ?_⟩
  · intro a b i h
    fin_cases i <;>
      simp [V4.lane, Dvec4.min_componentwise, Dvec4.max_componentwise,
        Fvec4.min_componentwise, Fvec4.max_componentwise, map4] at h ⊢ <;>
      exact ⟨minSSE_nan h, maxSSE_nan h, minSSE_nan h, maxSSE_nan h⟩
  · intro a b i h
    fin_cases i <;>
      simp [V2.lane, Dvec2.min_componentwise, Dvec2.max_componentwise, map2] at h ⊢ <;>
      exact ⟨minSSE_nan h, maxSSE_nan h⟩
  · intro a b i
    fin_cases i <;>
      simp [V2.lane, Fvec2.min_componentwise, Fvec2.max_componentwise, map2] <;>
      exact ⟨fun h1 _ => ⟨rustMin_nan_left h1, rustMax_nan_left h1⟩,
        fun h1 h2 => ⟨rustMin_nan_right h1 h2, rustMax_nan_right h1 h2⟩⟩

/-- C5 witness: concrete instances with a NaN in the first operand (SIMD
rule) and in each position for the scalar `Fvec2`. -/
theorem claim_minmax_nan_policy_witness :
    ((Dvec4.min_componentwise ⟨nan, fin 0, fin 0, fin 0⟩ ⟨fin 1, fin 0, fin 0, fin 0⟩).lane 0 =
       (⟨fin 1, fin 0, fin 0, fin 0⟩ : V4).lane 0 ∧
     (Dvec4.max_componentwise ⟨nan, fin 0, fin 0, fin 0⟩ ⟨fin 1, fin 0, fin 0, fin 0⟩).lane 0 =
       (⟨fin 1, fin 0, fin 0, fin 0⟩ : V4).lane 0 ∧
     (Fvec4.min_componentwise ⟨nan, fin 0, fin 0, fin 0⟩ ⟨fin 1, fin 0, fin 0, fin 0⟩).lane 0 =
       (⟨fin 1, fin 0, fin 0, fin 0⟩ : V4).lane 0 ∧
     (Fvec4.max_componentwise ⟨nan, fin 0, fin 0, fin 0⟩ ⟨fin 1, fin 0, fin 0, fin 0⟩).lane 0 =
       (⟨fin 1, fin 0, fin 0, fin 0⟩ : V4).lane 0) ∧
    ((Fvec2.min_componentwise ⟨fin 1, fin 0⟩ ⟨nan, fin 0⟩).lane 0 =
       (⟨fin 1, fin 0⟩ : V2).lane 0 ∧
     (Fvec2.max_componentwise ⟨fin 1, fin 0⟩ ⟨nan, fin 0⟩).lane 0 =
       (⟨fin 1, fin 0⟩ : V2).lane 0) :=
  ⟨claim_minmax_nan_policy.1 ⟨nan, fin 0, fin 0, fin 0⟩ ⟨fin 1, fin 0, fin 0, fin 0⟩ 0
     (by decide),
   (claim_minmax_nan_policy.2.2 ⟨fin 1, fin 0⟩ ⟨nan, fin 0⟩ 0).2 (by decide) (by decide)⟩

/-- C10: the derived matrix equality is the conjunction of the four
columns' `eq_reduce` IEEE lane-wise comparisons; two NaN-free matrices that
differ only in the sign of zero entries compare equal; a matrix with any
NaN entry is never equal to itself.  Both precisions. -/
theorem claim_matrix_eq_structure :
    (∀ m n : M4,
       Dmat4.eq m n = (Dvec4.eq_reduce m.c0 n.c0 && Dvec4.eq_reduce m.c1 n.c1 &&
         Dvec4.eq_reduce m.c2 n.c2 && Dvec4.eq_reduce m.c3 n.c3) ∧
       Fmat4.eq m n = (Fvec4.eq_reduce m.c0 n.c0 && Fvec4.eq_reduce m.c1 n.c1 &&
         Fvec4.eq_reduce m.c2 n.c2 && Fvec4.eq_reduce m.c3 n.c3)) ∧
    (∀ m n : M4,
       (∀ i j : Fin 4,
          ((m.col i).lane j = (n.col i).lane j ∧ ((m.col i).lane j).isNan = false) ∨
          (((m.col i).lane j).isZero = true ∧ ((n.col i).lane j).isZero = true)) →
       Dmat4.eq m n = true ∧ Fmat4.eq m n = true) ∧
    (∀ (m : M4) (i j : Fin 4), ((m.col i).lane j).isNan = true →
       Dmat4.eq m m = false ∧ Fmat4.eq m m = false) := by
  refine ⟨fun m n => ⟨rfl, rfl⟩, ?_, ?_⟩
  · intro m n h
    have lane : ∀ i j : Fin 4, feq ((m.col i).lane j) ((n.col i).lane j) = true := by
      intro i j
      rcases h i j with ⟨heq, hnn⟩ | ⟨hz1, hz2⟩
      · rw [heq] at hnn ⊢
        exact feq_refl hnn
      · exact feq_zeros hz1 hz2
    have col : ∀ i : Fin 4, Dvec4.eq_reduce (m.col i) (n.col i) = true := by
      intro i
      have l0 := lane i ⟨0, by omega⟩
      have l1 := lane i ⟨1, by omega⟩
      have l2 := lane i ⟨2, by omega⟩
      have l3 := lane i ⟨3, by omega⟩
      simp [V4.lane] at l0 l1 l2 l3
      simp [Dvec4.eq_reduce, l0, l1, l2, l3]
    have hD : Dmat4.eq m n = true := by
      have e0 := col ⟨0, by omega⟩
      have e1 := col ⟨1, by omega⟩
      have e2 := col ⟨2, by omega⟩
      have e3 := col ⟨3, by omega⟩
      simp [M4.col] at e0 e1 e2 e3
      simp [Dmat4.eq, e0, e1, e2, e3]
    exact ⟨hD, hD⟩
  · intro m i j h
    have hcol : Dvec4.eq_reduce (m.col i) (m.col i) = false := by
      fin_cases j <;>
        simp [V4.lane] at h <;>
        simp [Dvec4.eq_reduce, feq_nan_left h]
    have hD : Dmat4.eq m m = false := by
      fin_cases i <;>
        simp [M4.col] at hcol <;>
        simp [Dmat4.eq, hcol]
    exact ⟨hD, hD⟩

/-- C10 witness: a `+0` column versus a `-0` column compares equal; an
all-NaN matrix is not equal to itself. -/
theorem claim_matrix_eq_structure_witness :
    (Dmat4.eq ⟨⟨fin 0, fin 0, fin 0, fin 0⟩, ⟨fin 1, fin 1, fin 1, fin 1⟩,
        ⟨fin 1, fin 1, fin 1, fin 1⟩, ⟨fin 1, fin 1, fin 1, fin 1⟩⟩
      ⟨⟨nzero, nzero, nzero, nzero⟩, ⟨fin 1, fin 1, fin 1, fin 1⟩,
        ⟨fin 1, fin 1, fin 1, fin 1⟩, ⟨fin 1, fin 1, fin 1, fin 1⟩⟩ = true ∧
     Fmat4.eq ⟨⟨fin 0, fin 0, fin 0, fin 0⟩, ⟨fin 1, fin 1, fin 1, fin 1⟩,
        ⟨fin 1, fin 1, fin 1, fin 1⟩, ⟨fin 1, fin 1, fin 1, fin 1⟩⟩
      ⟨⟨nzero, nzero, nzero, nzero⟩, ⟨fin 1, fin 1, fin 1, fin 1⟩,
        ⟨fin 1, fin 1, fin 1, fin 1⟩, ⟨fin 1, fin 1, fin 1, fin 1⟩⟩ = true) ∧
    (Dmat4.eq ⟨⟨nan, fin 0, fin 0, fin 0⟩, ⟨fin 1, fin 1, fin 1, fin 1⟩,
        ⟨fin 1, fin 1, fin 1, fin 1⟩, ⟨fin 1, fin 1, fin 1, fin 1⟩⟩
      ⟨⟨nan, fin 0, fin 0, fin 0⟩, ⟨fin 1, fin 1, fin 1, fin 1⟩,
        ⟨fin 1, fin 1, fin 1, fin 1⟩, ⟨fin 1, fin 1, fin 1, fin 1⟩⟩ = false ∧
     Fmat4.eq ⟨⟨nan, fin 0, fin 0, fin 0⟩, ⟨fin 1, fin 1, fin 1, fin 1⟩,
        ⟨fin 1, fin 1, fin 1, fin 1⟩, ⟨fin 1, fin 1, fin 1, fin 1⟩⟩
      ⟨⟨nan, fin 0, fin 0, fin 0⟩, ⟨fin 1, fin 1, fin 1, fin 1⟩,
        ⟨fin 1, fin 1, fin 1, fin 1⟩, ⟨fin 1, fin 1, fin 1, fin 1⟩⟩ = false) :=
  ⟨claim_matrix_eq_structure.2.1 _ _ (by decide),
   claim_matrix_eq_structure.2.2 _ 0 0 (by decide)⟩

/-- If the 4-wide norm is zero, every lane of the vector is a zero
(`dot(self,self)` is a sum of squares, which can only reach zero when every
square is `+0`). -/
theorem norm4_zero_lanes {v : V4} (h : (Dvec4.norm v).isZero = true) :
    v.x.isZero = true ∧ v.y.isZero = true ∧ v.z.isZero = true ∧ v.w.isZero = true := by
  have hd : Dvec4.dot v v = fin 0 ∨ Dvec4.dot v v = nzero := fsqrt_isZero h
  have hdot : Dvec4.dot v v =
      fadd (fadd (fmul v.x v.x) (fmul v.z v.z)) (fadd (fmul v.y v.y) (fmul v.w v.w)) := rfl
  rcases hd with h0 | hn
  · rw [hdot] at h0
    have h1 := fadd_NN_eq_fin_zero (NN_fadd (NN_sq v.x) (NN_sq v.z))
      (NN_fadd (NN_sq v.y) (NN_sq v.w)) h0
    have h2 := fadd_NN_eq_fin_zero (NN_sq v.x) (NN_sq v.z) h1.1
    have h3 := fadd_NN_eq_fin_zero (NN_sq v.y) (NN_sq v.w) h1.2
    exact ⟨sq_eq_fin_zero h2.1, sq_eq_fin_zero h3.1,
           sq_eq_fin_zero h2.2, sq_eq_fin_zero h3.2⟩
  · rw [hdot] at hn
    exact absurd (fadd_eq_nzero (fadd_eq_nzero hn).1).1 (fmul_self_ne_nzero v.x)

/-- 2-wide analogue of `norm4_zero_lanes`. -/
theorem norm2_zero_lanes {v : V2} (h : (Dvec2.norm v).isZero = true) :
    v.x.isZero = true ∧ v.y.isZero = true := by
  have hd : Dvec2.dot v v = fin 0 ∨ Dvec2.dot v v = nzero := fsqrt_isZero h
  have hdot : Dvec2.dot v v = fadd (fmul v.x v.x) (fmul v.y v.y) := rfl
  rcases hd with h0 | hn
  · rw [hdot] at h0
    have h1 := fadd_NN_eq_fin_zero (NN_sq v.x) (NN_sq v.y) h0
    exact ⟨sq_eq_fin_zero h1.1, sq_eq_fin_zero h1.2⟩
  · rw [hdot] at hn
    exact absurd (fadd_eq_nzero hn).1 (fmul_self_ne_nzero v.x)

/-- C8: `normalize` is total — it is exactly `self / splat(norm(self))` for
every vector (no validation, no error path); when the norm is zero every
result lane is NaN or ±Inf by the IEEE division rules, and the all-zero
vector normalizes to all-NaN (each lane is `0/0`).  All four vector
types. -/
theorem claim_normalize_total :
    (∀ v : V4, Dvec4.normalize v = Dvec4.div_componentwise v (Dvec4.splat (Dvec4.norm v)) ∧
               Fvec4.normalize v = Fvec4.div_componentwise v (Fvec4.splat (Fvec4.norm v))) ∧
    (∀ v : V2, Dvec2.normalize v = Dvec2.div_componentwise v (Dvec2.splat (Dvec2.norm v)) ∧
               Fvec2.normalize v = Fvec2.div_componentwise v (Fvec2.splat (Fvec2.norm v))) ∧
    (∀ v : V4, (Dvec4.norm v).isZero = true → ∀ i : Fin 4,
       (((Dvec4.normalize v).lane i).isNan || ((Dvec4.normalize v).lane i).isInf) = true) ∧
    (∀ v : V2, (Dvec2.norm v).isZero = true → ∀ i : Fin 2,
       (((Dvec2.normalize v).lane i).isNan || ((Dvec2.normalize v).lane i).isInf) = true) ∧
    (Dvec4.normalize (Dvec4.splat (fin 0)) = Dvec4.splat nan ∧
     Fvec4.normalize (Fvec4.splat (fin 0)) = Fvec4.splat nan ∧
     Dvec2.normalize (Dvec2.splat (fin 0)) = Dvec2.splat nan ∧
     Fvec2.normalize (Fvec2.splat (fin 0)) = Fvec2.splat nan) := by
  refine ⟨fun v => ⟨rfl, rfl⟩, fun v => ⟨rfl, rfl⟩, ?_, ?_, ?_⟩
  · intro v h i
    obtain ⟨h0, h1, h2, h3⟩ := norm4_zero_lanes h
    fin_cases i <;>
      simp [V4.lane, Dvec4.normalize, Dvec4.div_componentwise, Dvec4.splat,
        Dvec4.new, map4, fdiv_zero_zero h0 h, fdiv_zero_zero h1 h,
        fdiv_zero_zero h2 h, fdiv_zero_zero h3 h, isNan]
  · intro v h i
    obtain ⟨h0, h1⟩ := norm2_zero_lanes h
    fin_cases i <;>
      simp [V2.lane, Dvec2.normalize, Dvec2.div_componentwise, Dvec2.splat,
        Dvec2.new, map2, fdiv_zero_zero h0 h, fdiv_zero_zero h1 h, isNan]
  · norm_num [Dvec4.normalize, Fvec4.normalize, Dvec2.normalize, Fvec2.normalize,
      Dvec4.div_componentwise, Fvec4.div_componentwise, Dvec2.div_componentwise,
      Fvec2.div_componentwise, Dvec4.norm, Fvec4.norm, Dvec2.norm, Fvec2.norm,
      Dvec4.dot, Fvec4.dot, Dvec2.dot, Fvec2.dot, Dvec4.splat, Fvec4.splat,
      Dvec2.splat, Fvec2.splat, Dvec4.new, Fvec4.new, Dvec2.new, Fvec2.new,
      Dvec4.mul_componentwise, Fvec4.mul_componentwise, Dvec2.mul_componentwise,
      map4, map2, add_pd2, add_sd2, perm2_swap, perm4_2300, perm4_1000,
      low128, high128, Fvec4.add_componentwise, fadd, fmul, fdiv, fsqrt, ratSqrt,
      mkZero]

/-- C8 witness: the third and fourth conjuncts instantiated at the all-zero
vectors (the norm-zero hypothesis discharged concretely). -/
theorem claim_normalize_total_witness :
    ((Dvec4.norm (Dvec4.splat (fin 0))).isZero = true ∧
     (((Dvec4.normalize (Dvec4.splat (fin 0))).lane 0).isNan ||
      ((Dvec4.normalize (Dvec4.splat (fin 0))).lane 0).isInf) = true) ∧
    ((Dvec2.norm (Dvec2.splat (fin 0))).isZero = true ∧
     (((Dvec2.normalize (Dvec2.splat (fin 0))).lane 0).isNan ||
      ((Dvec2.normalize (Dvec2.splat (fin 0))).lane 0).isInf) = true) := by
  have h4 : (Dvec4.norm (Dvec4.splat (fin 0))).isZero = true := by
    norm_num [Dvec4.norm, Dvec4.dot, Dvec4.splat, Dvec4.new, Dvec4.mul_componentwise,
      map4, add_pd2, add_sd2, perm2_swap, low128, high128, fadd, fmul, fsqrt,
      ratSqrt, isZero, mkZero]
  have h2 : (Dvec2.norm (Dvec2.splat (fin 0))).isZero = true := by
    norm_num [Dvec2.norm, Dvec2.dot, Dvec2.splat, Dvec2.new, Dvec2.mul_componentwise,
      map2, add_sd2, perm2_swap, fadd, fmul, fsqrt, ratSqrt, isZero, mkZero]
  exact ⟨⟨h4, claim_normalize_total.2.2.1 (Dvec4.splat (fin 0)) h4 0⟩,
         ⟨h2, claim_normalize_total.2.2.2.1 (Dvec2.splat (fin 0)) h2 0⟩⟩

/-- Exact rational dot product of the first three lanes, used to state the
orthonormality of the upper-left 3x3 rotation block. -/
def col3dot (a b : V4) : ℚ :=
  val a.x * val b.x + val a.y * val b.y + val a.z * val b.z

/-- The rotation-only precondition of the claim: every entry finite, column
3 equal to `(0,0,0,1)` and bottom row `[0,0,0,1]` (IEEE equality, so signed
zeros qualify), and an orthonormal upper-left 3x3 block (exactly, in the
rational value semantics). -/
def RotationOnly (m : M4) : Prop :=
  (∀ i j : Fin 4, ((m.col i).lane j).isFinite = true) ∧
  (feq m.c3.x (fin 0) = true ∧ feq m.c3.y (fin 0) = true ∧
   feq m.c3.z (fin 0) = true ∧ feq m.c3.w (fin 1) = true) ∧
  (feq m.c0.w (fin 0) = true ∧ feq m.c1.w (fin 0) = true ∧
   feq m.c2.w (fin 0) = true) ∧
  (col3dot m.c0 m.c0 = 1 ∧ col3dot m.c1 m.c1 = 1 ∧ col3dot m.c2 m.c2 = 1 ∧
   col3dot m.c0 m.c1 = 0 ∧ col3dot m.c0 m.c2 = 0 ∧ col3dot m.c1 m.c2 = 0)

/-- C1: for a rotation-only matrix (orthonormal upper-left 3x3 block,
column 3 `(0,0,0,1)`, bottom row `[0,0,0,1]`), `inverse_se3()` equals
`transpose()` under the `==` operator, in both precisions; and
`inverse_se3` is exactly the spec's stated procedure (save `p` = column 3,
reset column 3, transpose, new column 3 = negated product with `p`, lane 3
forced to 1) on every input. -/
theorem claim_inverse_se3_rotation :
    (∀ m : M4, RotationOnly m →
       Dmat4.eq (Dmat4.inverse_se3 m) (Dmat4.transpose m) = true ∧
       Fmat4.eq (Fmat4.inverse_se3 m) (Fmat4.transpose m) = true) ∧
    (∀ m : M4, Dmat4.inverse_se3 m = Dmat4.inverse_se3_spec m ∧
               Fmat4.inverse_se3 m = Fmat4.inverse_se3_spec m) := by
  constructor
  · intro m h
    obtain ⟨hfin, ⟨h30, h31, h32, h33⟩, ⟨hw0, hw1, hw2⟩, -⟩ := h
    obtain ⟨⟨a0, a1, a2, a3⟩, ⟨b0, b1, b2, b3⟩, ⟨g0, g1, g2, g3⟩, ⟨p0, p1, p2, p3⟩⟩ := m
    have f00 : a0.isFinite = true := hfin ⟨0, by omega⟩ ⟨0, by omega⟩
    have f01 : a1.isFinite = true := hfin ⟨0, by omega⟩ ⟨1, by omega⟩
    have f02 : a2.isFinite = true := hfin ⟨0, by omega⟩ ⟨2, by omega⟩
    have f10 : b0.isFinite = true := hfin ⟨1, by omega⟩ ⟨0, by omega⟩
    have f11 : b1.isFinite = true := hfin ⟨1, by omega⟩ ⟨1, by omega⟩
    have f12 : b2.isFinite = true := hfin ⟨1, by omega⟩ ⟨2, by omega⟩
    have f20 : g0.isFinite = true := hfin ⟨2, by omega⟩ ⟨0, by omega⟩
    have f21 : g1.isFinite = true := hfin ⟨2, by omega⟩ ⟨1, by omega⟩
    have f22 : g2.isFinite = true := hfin ⟨2, by omega⟩ ⟨2, by omega⟩
    have zp0 : p0.isZero = true := feq_fin_zero h30
    have zp1 : p1.isZero = true := feq_fin_zero h31
    have zp2 : p2.isZero = true := feq_fin_zero h32
    have hp3 : p3 = fin 1 := feq_fin_one h33
    have za3 : a3.isZero = true := feq_fin_zero hw0
    have zb3 : b3.isZero = true := feq_fin_zero hw1
    have zg3 : g3.isZero = true := feq_fin_zero hw2
    subst hp3
    have hfin0 : (fin 0 : F).isZero = true := by decide
    have hD : Dmat4.eq
        (Dmat4.inverse_se3 ⟨⟨a0, a1, a2, a3⟩, ⟨b0, b1, b2, b3⟩,
          ⟨g0, g1, g2, g3⟩, ⟨p0, p1, p2, fin 1⟩⟩)
        (Dmat4.transpose ⟨⟨a0, a1, a2, a3⟩, ⟨b0, b1, b2, b3⟩,
          ⟨g0, g1, g2, g3⟩, ⟨p0, p1, p2, fin 1⟩⟩) = true := by
      simp only [Dmat4.eq, Dvec4.eq_reduce, Dmat4.inverse_se3, Dmat4.transpose,
        Dmat4.mul_vector, Dmat4.from_columns, Dvec4.new, Dvec4.neg,
        Dvec4.sub_componentwise, Dvec4.splat, Dvec4.mul_componentwise, map4,
        fmadd4, perm4_bcast0, perm4_bcast1, perm4_bcast2, perm4_bcast3,
        unpacklo_pd256, unpackhi_pd256, perm2f128_20, perm2f128_31, fmul_one,
        Bool.and_eq_true]
      refine ⟨⟨⟨⟨⟨⟨?_, ?_⟩, ?_⟩, ?_⟩, ⟨⟨⟨?_, ?_⟩, ?_⟩, ?_⟩⟩,
        ⟨⟨⟨?_, ?_⟩, ?_⟩, ?_⟩⟩, ⟨⟨⟨?_, ?_⟩, ?_⟩, ?_⟩⟩
      · exact feq_refl (isFinite_not_nan f00)
      · exact feq_refl (isFinite_not_nan f10)
      · exact feq_refl (isFinite_not_nan f20)
      · exact feq_zeros hfin0 zp0
      · exact feq_refl (isFinite_not_nan f01)
      · exact feq_refl (isFinite_not_nan f11)
      · exact feq_refl (isFinite_not_nan f21)
      · exact feq_zeros hfin0 zp1
      · exact feq_refl (isFinite_not_nan f02)
      · exact feq_refl (isFinite_not_nan f12)
      · exact feq_refl (isFinite_not_nan f22)
      · exact feq_zeros hfin0 zp2
      · exact feq_zeros (isZero_fsub_zero (isZero_fadd za3
          (isZero_fadd (isZero_fmul f02 zp2)
            (isZero_fadd (isZero_fmul f01 zp1) (isZero_fmul f00 zp0))))) za3
      · exact feq_zeros (isZero_fsub_zero (isZero_fadd zb3
          (isZero_fadd (isZero_fmul f12 zp2)
            (isZero_fadd (isZero_fmul f11 zp1) (isZero_fmul f10 zp0))))) zb3
      · exact feq_zeros (isZero_fsub_zero (isZero_fadd zg3
          (isZero_fadd (isZero_fmul f22 zp2)
            (isZero_fadd (isZero_fmul f21 zp1) (isZero_fmul f20 zp0))))) zg3
      · decide
    exact ⟨hD, hD⟩
  · exact fun m => ⟨rfl, rfl⟩

/-- The identity matrix: the simplest rotation-only rigid transform. -/
def Mid : M4 :=
  ⟨⟨fin 1, fin 0, fin 0, fin 0⟩, ⟨fin 0, fin 1, fin 0, fin 0⟩,
   ⟨fin 0, fin 0, fin 1, fin 0⟩, ⟨fin 0, fin 0, fin 0, fin 1⟩⟩

/-- C1 witness: the identity matrix satisfies the rotation-only
precondition and its `inverse_se3` compares equal to its transpose. -/
theorem claim_inverse_se3_rotation_witness :
    RotationOnly Mid ∧
    (Dmat4.eq (Dmat4.inverse_se3 Mid) (Dmat4.transpose Mid) = true ∧
     Fmat4.eq (Fmat4.inverse_se3 Mid) (Fmat4.transpose Mid) = true) := by
  have hrot : RotationOnly Mid := by
    refine ⟨?_, ⟨?_, ?_, ?_, ?_⟩, ⟨?_, ?_, ?_⟩, ?_⟩
    · intro i j
      fin_cases i <;> fin_cases j <;> rfl
    all_goals norm_num [Mid, col3dot, val, feq]
  exact ⟨hrot, claim_inverse_se3_rotation.1 Mid hrot⟩

end Mafs
